import Mathlib

/-!
Verification of the candidate reconciliation core of
src/converter/azookey_immutable_converter.cc.

Byte strings (std::string values) are modelled as lists of natural numbers,
one per byte.  Machine integers stay in Nat: every counter in the source is
non-negative and far from any overflow boundary on the inputs the code can
see.  The one fallible operation, std::string::substr(pos) with pos greater
than the size, is modelled with Option (none standing for the thrown
std::out_of_range).
-/

namespace AzooKey

/-- A std::string value, as its list of bytes. -/
abbrev ByteStr := List Nat

/-- Number of bytes the scan advances for a leading byte, as classified by the
identical if-chains of CountUtf8Characters, GetUtf8Prefix and GetUtf8Suffix
(lines 41-56, 68-78, 90-100 of the source): ASCII one byte, 110xxxxx two,
1110xxxx three, 11110xxx four, anything else one (fail-soft). -/
def utf8Step (c : Nat) : Nat :=
  if c &&& 0x80 = 0 then 1
  else if c &&& 0xE0 = 0xC0 then 2
  else if c &&& 0xF0 = 0xE0 then 3
  else if c &&& 0xF8 = 0xF0 then 4
  else 1

/-- Helper for CountUtf8Characters: walks the bytes one at a time, where a
positive skip count stands for the loop index i sitting inside the current
character (the source advances i by utf8Step in one assignment; consuming the
skipped continuation bytes one by one is the same walk). -/
def countUtf8Aux : ByteStr → Nat → Nat
  | [], _ => 0
  | _ :: rest, skip + 1 => countUtf8Aux rest skip
  | c :: rest, 0 => countUtf8Aux rest (utf8Step c - 1) + 1

/-- CountUtf8Characters (source lines 37-60): counts UTF-8 characters of a
byte string by classifying each leading byte and advancing by utf8Step. -/
def CountUtf8Characters (s : ByteStr) : Nat :=
  countUtf8Aux s 0

/-- Final value of byte_pos in the shared scanning loop of GetUtf8Prefix and
GetUtf8Suffix (source lines 64-80 and 86-102): starting from byte_pos = 0 and
chars_processed = 0, while byte_pos is inside the string and fewer than n
characters are processed, advance byte_pos by utf8Step of the current byte.
Note byte_pos can end up strictly beyond the string size when the last
classified character claims more bytes than remain. -/
def utf8BytePos : ByteStr → Nat → Nat
  | _, 0 => 0
  | [], _ + 1 => 0
  | c :: rest, n + 1 => utf8Step c + utf8BytePos (rest.drop (utf8Step c - 1)) n

/-- GetUtf8Prefix (source lines 63-82): substr(0, byte_pos).  The two-argument
substr clamps the count, which List.take does as well, so this is total. -/
def GetUtf8PrefixBytes (s : ByteStr) (n : Nat) : ByteStr :=
  s.take (utf8BytePos s n)

/-- The value substr(byte_pos) yields in GetUtf8Suffix whenever byte_pos is at
most the size of the string. -/
def getUtf8SuffixDrop (s : ByteStr) (n : Nat) : ByteStr :=
  s.drop (utf8BytePos s n)

/-- GetUtf8Suffix (source lines 85-104): substr(byte_pos).  The one-argument
substr throws std::out_of_range when byte_pos exceeds the size of the string,
modelled here as none. -/
def GetUtf8SuffixBytes (s : ByteStr) (n : Nat) : Option ByteStr :=
  if utf8BytePos s n ≤ s.length then some (getUtf8SuffixDrop s n) else none

/-- A parsed raw candidate (struct CandidateInfo, source lines 106-109): the
candidate text and the number of reading characters it claims to cover.  The
source field is an int; the parser only ever stores non-negative values read
from decimal digits, so Nat is used. -/
structure CandidateInfo where
  text : ByteStr
  corresponding_count : Nat
deriving DecidableEq, Repr

/-- Bytes of the key string text, compared at source line 183. -/
def keyTextBytes : ByteStr := [116, 101, 120, 116]

/-- Bytes of the key string correspondingCount, compared at source line 213. -/
def keyCountBytes : ByteStr :=
  [99, 111, 114, 114, 101, 115, 112, 111, 110, 100, 105, 110, 103, 67, 111, 117, 110, 116]

/-- Whitespace skip (source lines 121-125 and 148-152): space, tab, newline,
carriage return. -/
def skipWs : ByteStr → ByteStr
  | [] => []
  | c :: rest =>
      if c = 32 ∨ c = 9 ∨ c = 10 ∨ c = 13 then skipWs rest else c :: rest

/-- Key reader (source lines 170-176): accumulate bytes until a double quote
or the end of input, consuming the closing quote if present. -/
def readKey : ByteStr → ByteStr × ByteStr
  | [] => ([], [])
  | c :: rest =>
      if c = 34 then ([], rest)
      else
        match readKey rest with
        | (k, r) => (c :: k, r)

/-- Skip of spaces and colons between a key and its value (source lines
179-181): only the space byte and the colon byte, not other whitespace. -/
def skipSpaceColon : ByteStr → ByteStr
  | [] => []
  | c :: rest => if c = 32 ∨ c = 58 then skipSpaceColon rest else c :: rest

/-- Scanner for a quoted text value (source lines 188-210), entered after the
opening quote: consume until an unescaped double quote or the end of input,
translating the escapes for n, t, r, backslash and double quote, appending any
other escaped byte literally, and for the escape letter u skipping the next
four bytes without contributing anything when they exist within the input
(source lines 197-202).  Returns the accumulated value and the rest of the
input after the closing quote. -/
def readTextValue : ByteStr → ByteStr → ByteStr × ByteStr
  | [], acc => (acc, [])
  | c :: rest, acc =>
      if c = 34 then (acc, rest)
      else if c = 92 then
        match rest with
        | [] => (acc ++ [92], [])
        | e :: rest2 =>
            if e = 110 then readTextValue rest2 (acc ++ [10])
            else if e = 116 then readTextValue rest2 (acc ++ [9])
            else if e = 114 then readTextValue rest2 (acc ++ [13])
            else if e = 92 then readTextValue rest2 (acc ++ [92])
            else if e = 34 then readTextValue rest2 (acc ++ [34])
            else if e = 117 then
              if 4 ≤ rest2.length then readTextValue (rest2.drop 4) acc
              else readTextValue rest2 acc
            else readTextValue rest2 (acc ++ [e])
      else readTextValue rest (acc ++ [c])
termination_by s _ => s.length
decreasing_by all_goals (simp_wf <;> omega)

/-- Decimal digit reader for correspondingCount (source lines 214-220):
value = value * 10 + digit over a run of ASCII digits, starting from 0. -/
def readIntDigits : ByteStr → Nat → Nat × ByteStr
  | [], acc => (acc, [])
  | c :: rest, acc =>
      if 48 ≤ c ∧ c ≤ 57 then readIntDigits rest (acc * 10 + (c - 48))
      else (acc, c :: rest)

/-- Skip of a quoted value of an unknown key (source lines 223-229), entered
after the opening quote: consume until an unescaped double quote or the end,
a backslash eating the following byte when one exists. -/
def skipQuoted : ByteStr → ByteStr
  | [] => []
  | c :: rest =>
      if c = 34 then rest
      else if c = 92 then
        match rest with
        | [] => []
        | _ :: rest2 => skipQuoted rest2
      else skipQuoted rest

/-- Skip of a bare value of an unknown key (source lines 231-233): consume
until a comma or a closing brace, leaving that byte in place. -/
def skipBare : ByteStr → ByteStr
  | [] => []
  | c :: rest => if c = 44 ∨ c = 125 then c :: rest else skipBare rest

/-- One record body (the while loop at source lines 147-236): repeatedly skip
whitespace, stop at a closing brace or the end, skip a lone comma, then read a
quoted key followed by its value; the text key updates the candidate text via
readTextValue, the correspondingCount key updates the count via readIntDigits,
any other key has its value skipped.  Anything unexpected stops the loop.  The
loop always consumes at least one byte per iteration, so a fuel of one more
than the remaining length never runs out. -/
def parseObjectLoop : Nat → ByteStr → CandidateInfo → CandidateInfo × ByteStr
  | 0, s, info => (info, s)
  | fuel + 1, s, info =>
      match s with
      | [] => (info, [])
      | c :: rest =>
          if c = 125 then (info, c :: rest)
          else
            match skipWs (c :: rest) with
            | [] => (info, [])
            | c1 :: rest1 =>
                if c1 = 125 then (info, c1 :: rest1)
                else if c1 = 44 then parseObjectLoop fuel rest1 info
                else if c1 = 34 then
                  match readKey rest1 with
                  | (k, s2) =>
                      let s3 := skipSpaceColon s2
                      if k = keyTextBytes then
                        match s3 with
                        | 34 :: s4 =>
                            match readTextValue s4 [] with
                            | (v, s5) =>
                                parseObjectLoop fuel s5 { info with text := v }
                        | _ => parseObjectLoop fuel s3 info
                      else if k = keyCountBytes then
                        match readIntDigits s3 0 with
                        | (v, s4) =>
                            parseObjectLoop fuel s4
                              { info with corresponding_count := v }
                      else
                        match s3 with
                        | 34 :: s4 => parseObjectLoop fuel (skipQuoted s4) info
                        | _ => parseObjectLoop fuel (skipBare s3) info
                else (info, c1 :: rest1)

/-- The array loop (source lines 119-245): skip whitespace, stop at a closing
bracket or the end, skip a lone comma, require an opening brace, parse one
record, skip its closing brace when present, and keep the record only when its
text is non-empty (source line 242). -/
def parseArrayLoop : Nat → ByteStr → List CandidateInfo → List CandidateInfo
  | 0, _, acc => acc
  | fuel + 1, s, acc =>
      match s with
      | [] => acc
      | _ :: _ =>
          match skipWs s with
          | [] => acc
          | c :: rest =>
              if c = 93 then acc
              else if c = 44 then parseArrayLoop fuel rest acc
              else if c = 123 then
                match parseObjectLoop (rest.length + 1) rest
                    { text := [], corresponding_count := 0 } with
                | (info, s2) =>
                    let s3 := match s2 with
                              | 125 :: r2 => r2
                              | other => other
                    parseArrayLoop fuel s3
                      (if info.text = [] then acc else acc ++ [info])
              else acc

/-- ParseJsonCandidateArray (source lines 112-248): empty input or input not
starting with an opening bracket yields the empty list; otherwise scan the
array of records starting after the bracket. -/
def ParseJsonCandidateArray (json : ByteStr) : List CandidateInfo :=
  match json with
  | [] => []
  | c :: rest =>
      if c = 91 then parseArrayLoop (rest.length + 1) rest [] else []

/-- The candidate filtering loop of ParseCandidatesForSegment (source lines
658-676): resolve the coverage (a zero correspondingCount means full
coverage), keep an exact match unchanged, extend a shorter candidate with the
remaining reading characters, and drop an over-covering candidate.  The call
GetUtf8Suffix(key, c) happens only with c strictly below the character count
of key, where the suffix never throws and equals getUtf8SuffixDrop key c (see
getUtf8SuffixBytes_eq_some and utf8BytePos_le_length_of_lt_count). -/
def processFullSegment (key : ByteStr) (K : Nat) (cands : List CandidateInfo) :
    List CandidateInfo :=
  cands.foldl
    (fun a info =>
      let c := if info.corresponding_count > 0 then info.corresponding_count else K
      if c = K then a ++ [info]
      else if c < K then
        a ++ [{ text := info.text ++ getUtf8SuffixDrop key c, corresponding_count := K }]
      else a)
    []

/-- The candidate processing loop of ParseCandidates (source lines 724-738):
resolve the coverage; a shorter candidate is extended with the remaining
reading characters and its count set to the key length; every other candidate,
including an over-covering one, is pushed unchanged. -/
def processSingleKey (key : ByteStr) (K : Nat) (cands : List CandidateInfo) :
    List CandidateInfo :=
  cands.foldl
    (fun a info =>
      let c := if info.corresponding_count > 0 then info.corresponding_count else K
      if c < K then
        a ++ [{ text := info.text ++ getUtf8SuffixDrop key c, corresponding_count := K }]
      else a ++ [info])
    []

/-- The candidate filtering loop of ParseCandidatesForResizedSegment (source
lines 795-804): only candidates whose resolved coverage equals the key length
are kept, unchanged. -/
def processResized (K : Nat) (cands : List CandidateInfo) : List CandidateInfo :=
  cands.foldl
    (fun a info =>
      let c := if info.corresponding_count > 0 then info.corresponding_count else K
      if c = K then a ++ [info] else a)
    []

/-- The fallback step shared by the three call sites (source lines 678-684,
742-748 and 809-815): when the processed list is empty, a single candidate
whose text is the reading itself and whose count is the key character count is
synthesized. -/
def withFallback (key : ByteStr) (K : Nat) (processed : List CandidateInfo) :
    List CandidateInfo :=
  if processed.isEmpty then [{ text := key, corresponding_count := K }]
  else processed

/-- The fields of converter::Candidate assigned by the three emission loops. -/
structure Candidate where
  key : ByteStr
  value : ByteStr
  content_key : ByteStr
  content_value : ByteStr
  cost : Nat
  wcost : Nat
  structure_cost : Nat
  consumed_key_size : Nat
  lid : Nat
  rid : Nat
deriving DecidableEq, Repr

/-- One emitted candidate record, with the field assignments shared verbatim
by the three emission loops (source lines 691-707, 760-776 and 830-846). -/
def mkCandidate (key : ByteStr) (K : Nat) (cost : Nat) (text : ByteStr) : Candidate :=
  { key := key, value := text, content_key := key, content_value := text,
    cost := cost, wcost := cost, structure_cost := 0,
    consumed_key_size := K, lid := 0, rid := 0 }

/-- The emission loop shared by the three call sites: one record per processed
candidate in order, base_cost starting at the given value and growing by 100
per record. -/
def writeLoop (key : ByteStr) (K : Nat) : Nat → List CandidateInfo → List Candidate
  | _, [] => []
  | base, info :: rest => mkCandidate key K base info.text :: writeLoop key K (base + 100) rest

/-- Segment types relevant to this core; ParseCandidates sets FREE on the
segment it creates (source line 755). -/
inductive SegmentType
  | FREE
  | FIXED_VALUE
  | FIXED_BOUNDARY
  | HISTORY
deriving DecidableEq, Repr

/-- A conversion segment: its reading, type, candidate list and meta candidate
list (the parts of mozc Segment this core reads or writes). -/
structure Segment where
  key : ByteStr
  segment_type : SegmentType
  candidates : List Candidate
  meta_candidates : List Candidate
deriving DecidableEq, Repr

/-- The conversion segments of a mozc Segments collection, in order. -/
structure Segments where
  segments : List Segment
deriving DecidableEq, Repr

/-- ParseCandidatesForSegment (source lines 643-708): parse the blob, filter
and extend against the key, fall back to the identity candidate when nothing
survives, then clear the candidates and meta candidates of the target segment
and emit the records. -/
def ParseCandidatesForSegment (json : ByteStr) (key : ByteStr) (segment : Segment) :
    Segment :=
  let candidates := ParseJsonCandidateArray json
  let K := CountUtf8Characters key
  let processed := withFallback key K (processFullSegment key K candidates)
  { segment with candidates := writeLoop key K 0 processed, meta_candidates := [] }

/-- ParseCandidates (source lines 710-779): parse the blob, extend candidates
against the key, fall back to the identity candidate, then clear the whole
conversion segment list and create a single FREE segment for the full key,
emitting the records into it.  Returns success together with the new
collection (the C++ mutates the collection in place and returns bool). -/
def ParseCandidates (json : ByteStr) (key : ByteStr) (_segments : Segments) :
    Bool × Segments :=
  let candidates := ParseJsonCandidateArray json
  let K := CountUtf8Characters key
  let processed := withFallback key K (processSingleKey key K candidates)
  let seg : Segment :=
    { key := key, segment_type := SegmentType.FREE,
      candidates := writeLoop key K 0 processed, meta_candidates := [] }
  (!(processed.isEmpty), ⟨[seg]⟩)

/-- ParseCandidatesForResizedSegment (source lines 781-849): parse the blob,
keep only exact-coverage candidates, fall back to the identity candidate, then
require at least one conversion segment (returning false with the collection
untouched otherwise), clear only the first segment and emit the records into
it, leaving every other segment alone. -/
def ParseCandidatesForResizedSegment (json : ByteStr) (key : ByteStr)
    (segments : Segments) : Bool × Segments :=
  let candidates := ParseJsonCandidateArray json
  let K := CountUtf8Characters key
  let matching := withFallback key K (processResized K candidates)
  match segments.segments with
  | [] => (false, segments)
  | first :: rest =>
      let first2 : Segment :=
        { first with candidates := writeLoop key K 0 matching, meta_candidates := [] }
      (!(matching.isEmpty), ⟨first2 :: rest⟩)

/-- The per-segment body of the loop in Convert (source lines 603-638): a
segment with an empty key is skipped outright; otherwise the key is appended
to the engine session and candidates are fetched (the returned list of keys
records every AppendText call); a null candidate buffer leaves the segment
untouched, and otherwise ParseCandidatesForSegment rewrites it. -/
def convertSegment (engine : ByteStr → Option ByteStr) (seg : Segment) :
    Segment × List ByteStr :=
  if seg.key = [] then (seg, [])
  else
    match engine seg.key with
    | none => (seg, [seg.key])
    | some json => (ParseCandidatesForSegment json seg.key seg, [seg.key])

/-- Convert (source lines 577-641): fail when the converter is not
initialized, the segments pointer is null, the engine library is not loaded,
or there are no conversion segments; otherwise process every segment in order
with convertSegment and return true.  The second component carries the
resulting collection (none mirrors a null pointer) and the third the sequence
of keys sent to the engine. -/
def Convert (initialized : Bool) (loaded : Bool) (engine : ByteStr → Option ByteStr)
    (segments : Option Segments) : Bool × Option Segments × List ByteStr :=
  if initialized = false then (false, segments, [])
  else
    match segments with
    | none => (false, none, [])
    | some segs =>
        if loaded = false then (false, some segs, [])
        else if segs.segments = [] then (false, some segs, [])
        else
          let results := segs.segments.map (convertSegment engine)
          (true, some ⟨results.map Prod.fst⟩, (results.map (fun p => p.2)).flatten)

lemma utf8Step_pos (c : Nat) : 1 ≤ utf8Step c := by
  unfold utf8Step
  split_ifs <;> omega

lemma countUtf8Aux_eq_drop : ∀ (rest : ByteStr) (k : Nat),
    countUtf8Aux rest k = countUtf8Aux (rest.drop k) 0 := by
  intro rest
  induction rest with
  | nil => intro k; cases k <;> rfl
  | cons c r ih =>
      intro k
      cases k with
      | zero => rfl
      | succ k => simpa [countUtf8Aux] using ih k

lemma countUtf8Characters_cons (c : Nat) (rest : ByteStr) :
    CountUtf8Characters (c :: rest) =
      CountUtf8Characters (rest.drop (utf8Step c - 1)) + 1 := by
  unfold CountUtf8Characters
  rw [show countUtf8Aux (c :: rest) 0
        = countUtf8Aux rest (utf8Step c - 1) + 1 from rfl,
      countUtf8Aux_eq_drop]

lemma utf8BytePos_le_length_of_lt_count :
    ∀ (n : Nat) (s : ByteStr), n < CountUtf8Characters s →
      utf8BytePos s n ≤ s.length := by
  intro n
  induction n with
  | zero =>
      intro s _
      cases s <;> simp [utf8BytePos]
  | succ n ih =>
      intro s h
      cases s with
      | nil => simp [CountUtf8Characters, countUtf8Aux] at h
      | cons c rest =>
          rw [countUtf8Characters_cons] at h
          have hlt : n < CountUtf8Characters (rest.drop (utf8Step c - 1)) := by
            omega
          have hZ := ih (rest.drop (utf8Step c - 1)) hlt
          have hne : rest.drop (utf8Step c - 1) ≠ [] := by
            intro hnil
            rw [hnil] at hlt
            simp [CountUtf8Characters, countUtf8Aux] at hlt
          have hlen : (rest.drop (utf8Step c - 1)).length = rest.length - (utf8Step c - 1) :=
            List.length_drop _ _
          have hlen1 : 1 ≤ (rest.drop (utf8Step c - 1)).length := by
            cases hdrop : rest.drop (utf8Step c - 1) with
            | nil => exact absurd hdrop hne
            | cons a b => simp [hdrop]
          have hstep := utf8Step_pos c
          show utf8Step c + utf8BytePos (rest.drop (utf8Step c - 1)) n ≤ rest.length + 1
          omega

lemma getUtf8SuffixBytes_eq_some {s : ByteStr} {n : Nat}
    (h : utf8BytePos s n ≤ s.length) :
    GetUtf8SuffixBytes s n = some (getUtf8SuffixDrop s n) := by
  unfold GetUtf8SuffixBytes
  rw [if_pos h]

lemma getUtf8SuffixBytes_of_lt_count {s : ByteStr} {n : Nat}
    (h : n < CountUtf8Characters s) :
    GetUtf8SuffixBytes s n = some (getUtf8SuffixDrop s n) :=
  getUtf8SuffixBytes_eq_some (utf8BytePos_le_length_of_lt_count n s h)

lemma prefixBytes_append_suffixDrop (s : ByteStr) (n : Nat) :
    GetUtf8PrefixBytes s n ++ getUtf8SuffixDrop s n = s :=
  List.take_append_drop _ _

lemma processFull_foldl (key : ByteStr) (K : Nat) :
    ∀ (l : List CandidateInfo) (a : List CandidateInfo),
      List.foldl
        (fun a info =>
          let c := if info.corresponding_count > 0 then info.corresponding_count else K
          if c = K then a ++ [info]
          else if c < K then
            a ++ [{ text := info.text ++ getUtf8SuffixDrop key c, corresponding_count := K }]
          else a) a l
      = a ++ l.filterMap
          (fun info =>
            let c := if info.corresponding_count > 0 then info.corresponding_count else K
            if c = K then some info
            else if c < K then
              some { text := info.text ++ getUtf8SuffixDrop key c, corresponding_count := K }
            else none) := by
  intro l
  induction l with
  | nil => intro a; simp
  | cons x xs ih =>
      intro a
      rw [List.foldl_cons]
      by_cases h1 : (if x.corresponding_count > 0 then x.corresponding_count else K) = K
      · simp only [ih, List.filterMap_cons, h1]
        simp
      · by_cases h2 : (if x.corresponding_count > 0 then x.corresponding_count else K) < K
        · simp only [ih, List.filterMap_cons]
          simp [h1, h2]
        · simp only [ih, List.filterMap_cons]
          simp [h1, h2]

lemma processFullSegment_eq_filterMap (key : ByteStr) (K : Nat)
    (l : List CandidateInfo) :
    processFullSegment key K l
      = l.filterMap
          (fun info =>
            let c := if info.corresponding_count > 0 then info.corresponding_count else K
            if c = K then some info
            else if c < K then
              some { text := info.text ++ getUtf8SuffixDrop key c, corresponding_count := K }
            else none) := by
  unfold processFullSegment
  rw [processFull_foldl]
  simp

lemma processSingle_foldl (key : ByteStr) (K : Nat) :
    ∀ (l : List CandidateInfo) (a : List CandidateInfo),
      List.foldl
        (fun a info =>
          let c := if info.corresponding_count > 0 then info.corresponding_count else K
          if c < K then
            a ++ [{ text := info.text ++ getUtf8SuffixDrop key c, corresponding_count := K }]
          else a ++ [info]) a l
      = a ++ l.map
          (fun info =>
            let c := if info.corresponding_count > 0 then info.corresponding_count else K
            if c < K then
              { text := info.text ++ getUtf8SuffixDrop key c, corresponding_count := K }
            else info) := by
  intro l
  induction l with
  | nil => intro a; simp
  | cons x xs ih =>
      intro a
      rw [List.foldl_cons]
      by_cases h1 : (if x.corresponding_count > 0 then x.corresponding_count else K) < K
      · simp only [ih, List.map_cons]
        simp [h1]
      · simp only [ih, List.map_cons]
        simp [h1]

lemma processSingleKey_eq_map (key : ByteStr) (K : Nat) (l : List CandidateInfo) :
    processSingleKey key K l
      = l.map
          (fun info =>
            let c := if info.corresponding_count > 0 then info.corresponding_count else K
            if c < K then
              { text := info.text ++ getUtf8SuffixDrop key c, corresponding_count := K }
            else info) := by
  unfold processSingleKey
  rw [processSingle_foldl]
  simp

lemma processResized_foldl (K : Nat) :
    ∀ (l : List CandidateInfo) (a : List CandidateInfo),
      List.foldl
        (fun a info =>
          let c := if info.corresponding_count > 0 then info.corresponding_count else K
          if c = K then a ++ [info] else a) a l
      = a ++ l.filter
          (fun info =>
            decide ((if info.corresponding_count > 0 then info.corresponding_count else K) = K)) := by
  intro l
  induction l with
  | nil => intro a; simp
  | cons x xs ih =>
      intro a
      rw [List.foldl_cons]
      by_cases h1 : (if x.corresponding_count > 0 then x.corresponding_count else K) = K
      · simp only [ih, List.filter_cons]
        simp [h1]
      · simp only [ih, List.filter_cons]
        simp [h1]

lemma processResized_eq_filter (K : Nat) (l : List CandidateInfo) :
    processResized K l
      = l.filter
          (fun info =>
            decide ((if info.corresponding_count > 0 then info.corresponding_count else K) = K)) := by
  unfold processResized
  rw [processResized_foldl]
  simp

lemma withFallback_nil (key : ByteStr) (K : Nat) :
    withFallback key K [] = [{ text := key, corresponding_count := K }] := rfl

lemma withFallback_ne_nil (key : ByteStr) (K : Nat) (l : List CandidateInfo) :
    withFallback key K l ≠ [] := by
  cases l <;> simp [withFallback]

lemma writeLoop_length (key : ByteStr) (K : Nat) :
    ∀ (l : List CandidateInfo) (base : Nat),
      (writeLoop key K base l).length = l.length := by
  intro l
  induction l with
  | nil => intro base; rfl
  | cons x xs ih => intro base; simp [writeLoop, ih]

lemma writeLoop_ne_nil (key : ByteStr) (K : Nat) (base : Nat)
    (l : List CandidateInfo) (h : l ≠ []) :
    writeLoop key K base l ≠ [] := by
  cases l with
  | nil => exact absurd rfl h
  | cons x xs => simp [writeLoop]

lemma withFallback_isEmpty_false (key : ByteStr) (K : Nat) (l : List CandidateInfo) :
    (withFallback key K l).isEmpty = false := by
  cases l <;> simp [withFallback]

lemma writeLoop_getElem? (key : ByteStr) (K : Nat) :
    ∀ (l : List CandidateInfo) (base i : Nat),
      (writeLoop key K base l)[i]?
        = (l[i]?).map (fun info => mkCandidate key K (base + 100 * i) info.text) := by
  intro l
  induction l with
  | nil => intro base i; simp [writeLoop]
  | cons x xs ih =>
      intro base i
      cases i with
      | zero => simp [writeLoop]
      | succ j =>
          have h := ih (base + 100) j
          simp only [writeLoop, List.getElem?_cons_succ, h]
          have harith : base + 100 + 100 * j = base + 100 * (j + 1) := by ring
          rw [harith]

/-- C1: FullSegment reconciliation policy: for every raw candidate against a
reading key of character length K, with resolved coverage c equal to the
stated coverage when positive and K otherwise, the candidate is kept with text
unchanged when c equals K, extended to its text followed by the suffix of the
key after c characters (with coverage set to K) when c is below K, and
discarded when c exceeds K; moreover in the extension case the suffix
operation is defined (never throws) and yields exactly the appended bytes. -/
theorem c1_fullsegment_policy (key : ByteStr) (raw : List CandidateInfo) :
    processFullSegment key (CountUtf8Characters key) raw
      = raw.filterMap
          (fun info =>
            let c := if info.corresponding_count > 0 then info.corresponding_count
                     else CountUtf8Characters key
            if c = CountUtf8Characters key then some info
            else if c < CountUtf8Characters key then
              some { text := info.text ++ getUtf8SuffixDrop key c,
                     corresponding_count := CountUtf8Characters key }
            else none)
    ∧ ∀ c : Nat, c < CountUtf8Characters key →
        GetUtf8SuffixBytes key c = some (getUtf8SuffixDrop key c) :=
  ⟨processFullSegment_eq_filterMap key (CountUtf8Characters key) raw,
   fun _ hc => getUtf8SuffixBytes_of_lt_count hc⟩

/-- Witness for C1 at key = ab and three raw candidates: coverage 1 is
extended with the remaining byte, coverage 3 is discarded, coverage 0 resolves
to full coverage and is kept unchanged; and the suffix after one character of
ab is b. -/
theorem c1_witness :
    processFullSegment [97, 98] (CountUtf8Characters [97, 98])
        [{ text := [120], corresponding_count := 1 },
         { text := [121], corresponding_count := 3 },
         { text := [122], corresponding_count := 0 }]
      = [{ text := [120, 98], corresponding_count := 2 },
         { text := [122], corresponding_count := 0 }]
    ∧ GetUtf8SuffixBytes [97, 98] 1 = some [98] := by
  have h := c1_fullsegment_policy [97, 98]
    [{ text := [120], corresponding_count := 1 },
     { text := [121], corresponding_count := 3 },
     { text := [122], corresponding_count := 0 }]
  exact ⟨h.1.trans (by decide), (h.2 1 (by decide)).trans (by decide)⟩

/-- C2: fallback law: an empty processed list is replaced by exactly one
candidate whose text is the reading itself with coverage K, so the candidate
list written to a segment is never empty, in each of the three modes; in
particular an empty raw blob yields exactly the identity record. -/
theorem c2_fallback_never_empty :
    (∀ (key : ByteStr) (K : Nat),
        withFallback key K [] = [{ text := key, corresponding_count := K }])
    ∧ (∀ (key : ByteStr) (K : Nat) (processed : List CandidateInfo),
        withFallback key K processed ≠ [])
    ∧ (∀ (json key : ByteStr) (seg : Segment),
        (ParseCandidatesForSegment json key seg).candidates ≠ [])
    ∧ (∀ (json key : ByteStr) (segs : Segments), ∃ s : Segment,
        (ParseCandidates json key segs).2.segments = [s] ∧ s.candidates ≠ [])
    ∧ (∀ (key : ByteStr) (seg : Segment),
        (ParseCandidatesForSegment [] key seg).candidates
          = [mkCandidate key (CountUtf8Characters key) 0 key]) := by
  refine ⟨fun key K => rfl, fun key K processed => withFallback_ne_nil key K processed,
          ?_, ?_, fun key seg => rfl⟩
  · intro json key seg
    show writeLoop key (CountUtf8Characters key) 0
        (withFallback key (CountUtf8Characters key)
          (processFullSegment key (CountUtf8Characters key)
            (ParseJsonCandidateArray json))) ≠ []
    exact writeLoop_ne_nil _ _ _ _ (withFallback_ne_nil _ _ _)
  · intro json key segs
    refine ⟨_, rfl, ?_⟩
    show writeLoop key (CountUtf8Characters key) 0
        (withFallback key (CountUtf8Characters key)
          (processSingleKey key (CountUtf8Characters key)
            (ParseJsonCandidateArray json))) ≠ []
    exact writeLoop_ne_nil _ _ _ _ (withFallback_ne_nil _ _ _)

/-- Witness for C2: reconciling the empty blob against the reading a writes
exactly one record, the identity candidate for the reading. -/
theorem c2_witness :
    (ParseCandidatesForSegment [] [97]
        { key := [97], segment_type := SegmentType.FREE,
          candidates := [], meta_candidates := [] }).candidates
      = [mkCandidate [97] 1 0 [97]] := by
  have h := c2_fallback_never_empty.2.2.2.2 [97]
    { key := [97], segment_type := SegmentType.FREE,
      candidates := [], meta_candidates := [] }
  exact h.trans (by decide)

/-- C3 counterexample: in SingleKey mode a raw candidate with resolved
coverage 2 against the one-character reading a is kept wholly unchanged, so
its coverage stays 2 and does not become K = 1, contradicting the claim that
every candidate with coverage different from K is extended so that its
coverage becomes K. -/
theorem c3_counterexample :
    processSingleKey [97] (CountUtf8Characters [97])
        [{ text := [120], corresponding_count := 2 }]
      = [{ text := [120], corresponding_count := 2 }]
    ∧ ({ text := [120], corresponding_count := 2 } : CandidateInfo).corresponding_count
        ≠ CountUtf8Characters [97] := by decide

/-- C3 amended: SingleKey mode never discards a raw candidate: every raw
candidate produces exactly one output candidate in order; a candidate whose
resolved coverage c is below K is extended so its text gains the remaining
reading characters and its coverage becomes K, while a candidate with c at
least K (including over-coverage) is kept completely unchanged. -/
theorem c3_singlekey_never_discards (key : ByteStr) (raw : List CandidateInfo) :
    processSingleKey key (CountUtf8Characters key) raw
      = raw.map
          (fun info =>
            let c := if info.corresponding_count > 0 then info.corresponding_count
                     else CountUtf8Characters key
            if c < CountUtf8Characters key then
              { text := info.text ++ getUtf8SuffixDrop key c,
                corresponding_count := CountUtf8Characters key }
            else info) :=
  processSingleKey_eq_map key (CountUtf8Characters key) raw

/-- C4: ResizedSegment mode with at least one existing segment: the call
returns true, the first segment keeps its key and type but its candidate list
is replaced by the records of exactly those raw candidates whose resolved
coverage equals K, in input order, with the identity fallback when none match,
its meta candidates are cleared, and every other segment is untouched. -/
theorem c4_resized_replaces_first_only (json key : ByteStr) (first : Segment)
    (rest : List Segment) :
    ParseCandidatesForResizedSegment json key ⟨first :: rest⟩
      = (true,
         ⟨{ first with
              candidates :=
                writeLoop key (CountUtf8Characters key) 0
                  (withFallback key (CountUtf8Characters key)
                    ((ParseJsonCandidateArray json).filter
                      (fun info =>
                        decide ((if info.corresponding_count > 0 then info.corresponding_count
                                 else CountUtf8Characters key) = CountUtf8Characters key)))),
              meta_candidates := [] } :: rest⟩) := by
  unfold ParseCandidatesForResizedSegment
  simp only [processResized_eq_filter]
  simp [withFallback_isEmpty_false]

/-- C5: every emitted candidate record has key and content key equal to the
reading, value equal to content value, structure cost zero, consumed length
equal to the reading character count, and the record at rank i has cost
100 * i (hence costs never decrease along the list). -/
theorem c5_record_invariants (key : ByteStr) (infos : List CandidateInfo)
    (i : Fin (writeLoop key (CountUtf8Characters key) 0 infos).length) :
    ((writeLoop key (CountUtf8Characters key) 0 infos).get i).key = key
    ∧ ((writeLoop key (CountUtf8Characters key) 0 infos).get i).content_key = key
    ∧ ((writeLoop key (CountUtf8Characters key) 0 infos).get i).value
        = ((writeLoop key (CountUtf8Characters key) 0 infos).get i).content_value
    ∧ ((writeLoop key (CountUtf8Characters key) 0 infos).get i).structure_cost = 0
    ∧ ((writeLoop key (CountUtf8Characters key) 0 infos).get i).consumed_key_size
        = CountUtf8Characters key
    ∧ ((writeLoop key (CountUtf8Characters key) 0 infos).get i).cost = 100 * i.val := by
  have hlen : i.val < infos.length := by
    have hw := writeLoop_length key (CountUtf8Characters key) infos 0
    have hi := i.isLt
    omega
  have h := writeLoop_getElem? key (CountUtf8Characters key) infos 0 i.val
  rw [List.getElem?_eq_getElem i.isLt, List.getElem?_eq_getElem hlen] at h
  simp only [Option.map_some', Option.some.injEq] at h
  have hget : (writeLoop key (CountUtf8Characters key) 0 infos).get i
      = (writeLoop key (CountUtf8Characters key) 0 infos)[i.val] := rfl
  rw [hget, h]
  simp [mkCandidate]

/-- C6 (failing input for the round-trip claim): on the byte string holding
the single byte 0xC3 (a truncated two-byte UTF-8 sequence) with n = 1, the
scan advances byte_pos to 2, strictly beyond the string size 1, so
GetUtf8Suffix calls substr(2) on a one-byte string and throws
std::out_of_range (modelled as none) instead of returning the bytes whose
concatenation after the prefix would restore the string; GetUtf8Prefix, whose
two-argument substr clamps, still returns the whole string. -/
theorem c6_suffix_throws_on_truncated_utf8 :
    GetUtf8SuffixBytes [195] 1 = none
    ∧ GetUtf8PrefixBytes [195] 1 = [195]
    ∧ CountUtf8Characters [195] = 1
    ∧ utf8BytePos [195] 1 = 2 := by decide

/-- C7: order preservation in every mode: each of the three processing loops
distributes over list append, so it computes its output element by element,
left to right; surviving candidates therefore appear in input order and no
re-sort happens. -/
theorem c7_order_preservation (key : ByteStr) (xs ys : List CandidateInfo) :
    processFullSegment key (CountUtf8Characters key) (xs ++ ys)
      = processFullSegment key (CountUtf8Characters key) xs
        ++ processFullSegment key (CountUtf8Characters key) ys
    ∧ processSingleKey key (CountUtf8Characters key) (xs ++ ys)
      = processSingleKey key (CountUtf8Characters key) xs
        ++ processSingleKey key (CountUtf8Characters key) ys
    ∧ processResized (CountUtf8Characters key) (xs ++ ys)
      = processResized (CountUtf8Characters key) xs
        ++ processResized (CountUtf8Characters key) ys := by
  refine ⟨?_, ?_, ?_⟩ <;>
    simp [processFullSegment_eq_filterMap, processSingleKey_eq_map,
          processResized_eq_filter]

/-- C8: ResizedSegment mode invoked with zero existing conversion segments
returns false and leaves the segments collection exactly as it was. -/
theorem c8_resized_no_segments_fails (json key : ByteStr) :
    ParseCandidatesForResizedSegment json key ⟨[]⟩ = (false, ⟨[]⟩) := rfl

/-- C9: inside a quoted text value, an escape of the letter u followed by four
bytes is consumed whole while contributing nothing to the accumulated text:
the scanner state continues after the four digits with the value unchanged,
whatever the digits, the following input, and the text accumulated so far. -/
theorem c9_unicode_escape_skipped (d1 d2 d3 d4 : Nat) (rest acc : ByteStr) :
    readTextValue (92 :: 117 :: d1 :: d2 :: d3 :: d4 :: rest) acc
      = readTextValue rest acc := by
  simp [readTextValue]

/-- C10: Convert with the converter initialized, the engine library loaded, a
non-null segments collection and at least one conversion segment returns
true; every conversion segment whose key is empty is left exactly as it was
(same record at the same index) and its key is never sent to the engine. -/
theorem c10_convert_skips_empty_keys (engine : ByteStr → Option ByteStr)
    (segs : Segments) (h : segs.segments ≠ []) :
    (Convert true true engine (some segs)).1 = true
    ∧ (∃ segs2 : Segments,
        (Convert true true engine (some segs)).2.1 = some segs2
        ∧ segs2.segments.length = segs.segments.length
        ∧ ∀ (i : Nat) (s : Segment), segs.segments[i]? = some s → s.key = [] →
            segs2.segments[i]? = some s)
    ∧ [] ∉ (Convert true true engine (some segs)).2.2 := by
  have hred : Convert true true engine (some segs)
      = (true, some ⟨(segs.segments.map (convertSegment engine)).map Prod.fst⟩,
         ((segs.segments.map (convertSegment engine)).map (fun p => p.2)).flatten) := by
    unfold Convert
    simp [h]
  refine ⟨by rw [hred],
          ⟨⟨(segs.segments.map (convertSegment engine)).map Prod.fst⟩,
           by rw [hred], by simp, ?_⟩, ?_⟩
  · intro i s hi hkey
    show ((segs.segments.map (convertSegment engine)).map Prod.fst)[i]? = some s
    rw [List.map_map, List.getElem?_map, hi]
    simp only [Option.map_some', Option.some.injEq, Function.comp_apply]
    unfold convertSegment
    rw [if_pos hkey]
  · rw [hred]
    intro hmem
    rw [List.mem_flatten] at hmem
    obtain ⟨l, hl, hmem2⟩ := hmem
    rw [List.mem_map] at hl
    obtain ⟨p, hp, rfl⟩ := hl
    rw [List.mem_map] at hp
    obtain ⟨seg, hseg, rfl⟩ := hp
    unfold convertSegment at hmem2
    by_cases hk : seg.key = []
    · rw [if_pos hk] at hmem2
      simp at hmem2
    · rw [if_neg hk] at hmem2
      cases hcs : engine seg.key with
      | none =>
          rw [hcs] at hmem2
          simp at hmem2
          exact hk hmem2
      | some json =>
          rw [hcs] at hmem2
          simp at hmem2
          exact hk hmem2

/-- Witness for C10: one conversion segment with an empty key and an engine
that would return nothing: Convert succeeds, the collection comes back with
the segment untouched at index 0, and no key was sent to the engine. -/
theorem c10_witness :
    (Convert true true (fun _ => none)
        (some ⟨[{ key := [], segment_type := SegmentType.FREE,
                  candidates := [], meta_candidates := [] }]⟩)).1 = true
    ∧ (∃ segs2 : Segments,
        (Convert true true (fun _ => none)
            (some ⟨[{ key := [], segment_type := SegmentType.FREE,
                      candidates := [], meta_candidates := [] }]⟩)).2.1 = some segs2
        ∧ segs2.segments.length
            = (Segments.mk [{ key := [], segment_type := SegmentType.FREE,
                              candidates := [], meta_candidates := [] }]).segments.length
        ∧ ∀ (i : Nat) (s : Segment),
            (Segments.mk [{ key := [], segment_type := SegmentType.FREE,
                            candidates := [], meta_candidates := [] }]).segments[i]? = some s →
            s.key = [] → segs2.segments[i]? = some s)
    ∧ [] ∉ (Convert true true (fun _ => none)
        (some ⟨[{ key := [], segment_type := SegmentType.FREE,
                  candidates := [], meta_candidates := [] }]⟩)).2.2 :=
  c10_convert_skips_empty_keys (fun _ => none)
    ⟨[{ key := [], segment_type := SegmentType.FREE,
        candidates := [], meta_candidates := [] }]⟩ (by decide)

end AzooKey
